import Mathlib

/-!
Verification of the resource decoding pipeline of the e2e-framework repository
(klient/k8s/resources/decoder.go).

The Go code is shallowly embedded: each public function of the decoder is
translated into a pure Lean function over explicit data.  External
collaborators (the serializer built over scheme.Scheme, the YAML document
splitter, the filesystem, the Resource client) are modelled as data supplied
to the functions:

* a `Document` records the outcome of running the registry-backed universal
  deserializer on the document's bytes (`SchemeResult`) and the outcome of
  yaml.Unmarshal of the same bytes into an `unstructured.Unstructured`;
* a `Manifest` is the sequence of documents produced by the YAML splitter
  (`yaml.NewYAMLReader`), followed by either clean EOF or a read error;
* a directory is a list of file names paired with the manifests behind them;
* Go's `(value, error)` multiple returns become pairs `value × Option Err`;
* handler invocations are made observable: the each-variant functions return,
  next to the Go error result, the trace of objects passed to the handler.

Mutable-map aliasing in the patch helpers (MutateLabels / MutateAnnotations)
is translated to its net effect on the object's metadata; comments at those
definitions retrace the Go statements.
-/

namespace resources

/-- Errors of the modelled operations.  `notFound` and `alreadyExists` are the
error classes recognised by `apierrors.IsNotFound` / `apierrors.IsAlreadyExists`;
everything else is carried as a message, as the Go code never inspects error
contents otherwise. -/
inductive Err where
  | notFound
  | alreadyExists
  | msg (s : String)
deriving DecidableEq, Repr

/-- The predicate apierrors.IsNotFound, restricted to the modelled error type. -/
def isNotFound : Err → Bool
  | .notFound => true
  | _ => false

/-- The predicate apierrors.IsAlreadyExists, restricted to the modelled error type. -/
def isAlreadyExists : Err → Bool
  | .alreadyExists => true
  | _ => false

/-- A Go map[string]string, modelled as an association list. -/
abbrev Smap := List (String × String)

/-- Write m[k] = v into a Go map: the previous binding of k, if any, is replaced. -/
def mapInsert (m : Smap) (k v : String) : Smap :=
  (m.filter (fun kv => kv.1 != k)) ++ [(k, v)]

/-- The net effect of `for key, value := range ov { m[key] = value }`. -/
def mapUnion (m ov : Smap) : Smap :=
  ov.foldl (fun acc kv => mapInsert acc kv.1 kv.2) m

/-- Map lookup m[k]. -/
def mapGet (m : Smap) (k : String) : Option String :=
  (m.find? (fun kv => kv.1 == k)).map Prod.snd

/-- The metav1.ObjectMeta part of a k8s.Object that the decoder touches:
identity plus the two string maps.  A Go nil map is `none`; a present map is
`some`. `nspace` is the Namespace field. -/
structure ObjMeta where
  name : String
  nspace : String
  labels : Option Smap
  annotations : Option Smap
deriving DecidableEq, Repr

/-- MutateLabels (decoder.go): `labels := obj.GetLabels()` yields the live map;
when it is nil a fresh empty map is installed with `obj.SetLabels(labels)`, and
the loop `labels[key] = value` writes through the alias into the map now held
by the object.  Net effect: the object's labels become (old-or-empty) map with
the overrides written over it; the function never returns an error. -/
def MutateLabels (overrides : Smap) (obj : ObjMeta) : ObjMeta × Option Err :=
  match obj.labels with
  | some l => ({ obj with labels := some (mapUnion l overrides) }, none)
  | none => ({ obj with labels := some (mapUnion [] overrides) }, none)

/-- MutateAnnotations (decoder.go): `annotations := obj.GetAnnotations()`; when
it is nil the code installs the fresh empty map with `obj.SetLabels(annotations)`
(not SetAnnotations), so the loop `annotations[key] = value` writes through the
alias into the map that is now the object's LABELS map, while the annotations
field stays nil.  When the annotations map is present, the loop writes into it
and labels are untouched.  This is transcribed literally from the source. -/
def MutateAnnotations (overrides : Smap) (obj : ObjMeta) : ObjMeta × Option Err :=
  match obj.annotations with
  | some a => ({ obj with annotations := some (mapUnion a overrides) }, none)
  | none => ({ obj with labels := some (mapUnion [] overrides) }, none)

/-- A YAML/JSON value: a string scalar or a nested string-keyed map.  Used for
the generic unstructured representation. -/
inductive JsonVal where
  | str (s : String)
  | map (fields : List (String × JsonVal))

/-- The `.Object` payload of an unstructured.Unstructured: a string-keyed map. -/
abbrev UObj := List (String × JsonVal)

/-- A k8s.Object as produced by the type-resolving decoder: either an instance
of a concrete registered type (its kind plus the metadata the pipeline can
touch), or the generic unstructured fallback carrying the raw document map. -/
inductive KObject where
  | typed (kind : String) (meta : ObjMeta)
  | unstructured (fields : UObj)

/-- Access a field of the `.Object` map of an unstructured object. -/
def KObject.getField (o : KObject) (k : String) : Option JsonVal :=
  match o with
  | .typed _ _ => none
  | .unstructured fs => (fs.find? (fun kv => kv.1 == k)).map Prod.snd

/-- Outcome of `serializer.NewCodecFactory(scheme.Scheme).UniversalDeserializer().Decode`
on one document's bytes (the GroupVersionKind defaults hint is absorbed into
this outcome): success with an object satisfying k8s.Object, success with a
runtime.Object that does not satisfy k8s.Object, the distinguished
runtime.IsNotRegisteredError condition, or any other error. -/
inductive SchemeResult where
  | typed (o : KObject)
  | notObject
  | notRegistered
  | failed (e : Err)

/-- One document of a stream: the deserializer's outcome on its bytes together
with the outcome of yaml.Unmarshal of the same bytes into an
unstructured.Unstructured (used only on the notRegistered fallback path). -/
structure Document where
  scheme : SchemeResult
  unmarshal : Except Err UObj

/-- MutateFunc: a patch over one decoded object.  The Bool-free pair mirrors
Go's (mutated object, error) outcome: Go patches mutate in place, so the first
component is the object after the call even when an error is also returned. -/
abbrev Patch := KObject → KObject × Option Err

/-- HandlerFunc, with the context argument dropped (the pipeline threads it
through unchanged).  The argument is the k8s.Object interface value handed to
the handler, which the code can hand over as nil. -/
abbrev Handler := Option KObject → Option Err

/-- The loop `for _, patch := range patches { patch(obj) }` exactly as written
in DecodeAny: every patch runs, and the error each returns is discarded. -/
def applyPatches (patches : List Patch) (obj : KObject) : KObject :=
  patches.foldl (fun o p => (p o).1) obj

/-- DecodeAny (decoder.go): run the universal deserializer on the document; on
runtime.IsNotRegisteredError fall back to yaml.Unmarshal into a fresh
unstructured.Unstructured (failing the operation if that unmarshal fails); on
any other deserializer error fail.  If the deserialized runtime.Object does not
satisfy k8s.Object the function returns (nil, err) where err is still nil on
that path.  Patches are then applied with their errors discarded. -/
def DecodeAny (d : Document) (patches : List Patch) : Option KObject × Option Err :=
  match d.scheme with
  | .typed o => (some (applyPatches patches o), none)
  | .notObject => (none, none)
  | .failed e => (none, some e)
  | .notRegistered =>
    match d.unmarshal with
    | .error e => (none, some e)
    | .ok fs => (some (applyPatches patches (.unstructured fs)), none)

/-- A multi-document stream as delivered by yaml.NewYAMLReader: the documents
read in order, then either clean io.EOF (`none`) or a read error. -/
structure Manifest where
  docs : List Document
  readErr : Option Err

/-- Loop body of DecodeAll over the remaining documents: read each document,
DecodeAny it, accumulate; a read error or a DecodeAny error makes the function
return (nil, err), dropping every object accumulated so far. -/
def decodeAllGo (patches : List Patch) :
    List Document → Option Err → List (Option KObject) × Option Err
  | [], te => ([], te)
  | d :: rest, te =>
    match DecodeAny d patches with
    | (_, some e) => ([], some e)
    | (obj, none) =>
      match decodeAllGo patches rest te with
      | (os, none) => (obj :: os, none)
      | (_, some e) => ([], some e)

/-- DecodeAll (decoder.go). -/
def DecodeAll (m : Manifest) (patches : List Patch) : List (Option KObject) × Option Err :=
  decodeAllGo patches m.docs m.readErr

/-- Loop body of DecodeEach.  The first component is the trace of objects
passed to handlerFn, in invocation order; the second is the returned error.
The statement `handlerFn(ctx, obj)` appears in the source as a bare call whose
result is not assigned, so the trace records the invocation and the handler's
return value is discarded. -/
def decodeEachGo (h : Handler) (patches : List Patch) :
    List Document → Option Err → List (Option KObject) × Option Err
  | [], te => ([], te)
  | d :: rest, te =>
    match DecodeAny d patches with
    | (_, some e) => ([], some e)
    | (obj, none) =>
      let _discarded := h obj
      match decodeEachGo h patches rest te with
      | (tr, r) => (obj :: tr, r)

/-- DecodeEach (decoder.go), instrumented with the handler invocation trace. -/
def DecodeEach (h : Handler) (m : Manifest) (patches : List Patch) :
    List (Option KObject) × Option Err :=
  decodeEachGo h patches m.docs m.readErr

/-- Byte-wise ascending order on path strings, as used by Go's sort.Strings:
lexicographic order on the character sequences. -/
def fileLe (a b : String) : Prop := a.data ≤ b.data

instance : DecidableRel fileLe := fun a b => (inferInstance : Decidable (a.data ≤ b.data))

instance : IsTotal String fileLe := ⟨fun a b => le_total a.data b.data⟩

instance : IsTrans String fileLe := ⟨fun _ _ _ h1 h2 => le_trans h1 h2⟩

instance : IsAntisymm String fileLe := ⟨fun _ _ h1 h2 => String.ext (le_antisymm h1 h2)⟩

/-- A file name matches the pattern base*ext used with filepath.Glob: it starts
with the base, ends with the extension, and is long enough that the two parts
do not overlap (the star matches a possibly empty middle). -/
def globMatch (base ext name : String) : Bool :=
  base.data.isPrefixOf name.data && ext.data.isSuffixOf name.data
    && decide (base.length + ext.length ≤ name.length)

/-- A file name matches one of the three recognized extension globs. -/
def matchesAnyExt (base name : String) : Bool :=
  globMatch base ".yaml" name || globMatch base ".yml" name || globMatch base ".json" name

/-- listResourceFiles (decoder.go), after the path has been resolved to a
directory listing and an optional filename-prefix base: glob each of the three
extensions over the listing, concatenate yaml ++ yml ++ json, and sort the
result ascending (sort.Strings).  Go's Glob returns each group already sorted;
since the final sort.Strings fixes the overall order, filtering in listing
order followed by one sort yields the same list. -/
def listResourceFiles (listing : List String) (base : String) : List String :=
  let yamls := listing.filter (globMatch base ".yaml")
  let ymls := listing.filter (globMatch base ".yml")
  let jsons := listing.filter (globMatch base ".json")
  List.insertionSort fileLe (yamls ++ (ymls ++ jsons))

/-- A directory's contents: file names paired with the document streams behind
them.  A real directory never lists the same name twice. -/
abbrev DirFS := List (String × Manifest)

/-- os.Open of a named file within the directory. -/
def findFile : DirFS → String → Option Manifest
  | [], _ => none
  | (n, m) :: rest, f => if n = f then some m else findFile rest f

/-- Loop body of DecodeAllFiles over the resolved file names: open each file,
DecodeAll it, and concatenate; an open error or a DecodeAll error makes the
function return (nil, err), dropping objects from earlier files. -/
def decodeFilesGo (fs : DirFS) (patches : List Patch) :
    List String → List (Option KObject) × Option Err
  | [] => ([], none)
  | f :: rest =>
    match findFile fs f with
    | none => ([], some (.msg ("open " ++ f)))
    | some m =>
      match DecodeAll m patches with
      | (_, some e) => ([], some e)
      | (os, none) =>
        match decodeFilesGo fs patches rest with
        | (os2, none) => (os ++ os2, none)
        | (_, some e) => ([], some e)

/-- DecodeAllFiles (decoder.go): resolve the files, then collect across them. -/
def DecodeAllFiles (fs : DirFS) (base : String) (patches : List Patch) :
    List (Option KObject) × Option Err :=
  decodeFilesGo fs patches (listResourceFiles (fs.map Prod.fst) base)

/-- Loop body of DecodeEachFile: open each file, DecodeAll it, then run
`for _, obj := range o { handlerFn(ctx, obj) }` — again a bare call whose
result is discarded.  The first component is the handler invocation trace. -/
def decodeEachFilesGo (fs : DirFS) (h : Handler) (patches : List Patch) :
    List String → List (Option KObject) × Option Err
  | [] => ([], none)
  | f :: rest =>
    match findFile fs f with
    | none => ([], some (.msg ("open " ++ f)))
    | some m =>
      match DecodeAll m patches with
      | (_, some e) => ([], some e)
      | (os, none) =>
        let _discarded := os.map h
        match decodeEachFilesGo fs h patches rest with
        | (tr, r) => (os ++ tr, r)

/-- DecodeEachFile (decoder.go), instrumented with the handler trace. -/
def DecodeEachFile (h : Handler) (fs : DirFS) (base : String) (patches : List Patch) :
    List (Option KObject) × Option Err :=
  decodeEachFilesGo fs h patches (listResourceFiles (fs.map Prod.fst) base)

/-- The objects a single resolved file contributes to a collect-variant
directory decode. -/
def fileObjs (fs : DirFS) (patches : List Patch) (f : String) : List (Option KObject) :=
  match findFile fs f with
  | some m => (DecodeAll m patches).1
  | none => []

/-- A document of a known-type stream (DecodeObjects / DecodeDocuments):
`decoder.Decode(obj)` unmarshals the document over the contents of the fresh
copy it is given, so the outcome is a function of the template contents. -/
structure TypedDoc where
  decodeInto : ObjMeta → Except Err ObjMeta

/-- A heap-allocated object of the known-type pipeline: `id` is the identity
of the allocation (DeepCopyObject always makes a new one), `content` its
current state.  Distinct ids are disjoint allocations: a write through one is
never observable through another. -/
structure TObj where
  id : Nat
  content : ObjMeta

/-- A known-type multi-document stream, as produced by yaml.NewYAMLOrJSONDecoder:
documents in order, then clean io.EOF (`none`) or a read error. -/
structure TManifest where
  docs : List TypedDoc
  readErr : Option Err

/-- MutateFunc of the known-type pipeline, acting on the object metadata. -/
abbrev MPatch := ObjMeta → ObjMeta × Option Err

/-- The patch loop of DecodeObjects / DecodeDocuments: every patch runs and the
error each returns is discarded (the loop body is the bare call `patch(obj)`). -/
def applyMPatches (patches : List MPatch) (m : ObjMeta) : ObjMeta × Option Err :=
  (patches.foldl (fun o p => (p o).1) m, none)

/-- obj.DeepCopyObject(): a fresh allocation holding the same content.  The
allocation counter supplies the new identity. -/
def deepCopy (src : TObj) (ctr : Nat) : TObj × Nat :=
  (⟨ctr, src.content⟩, ctr + 1)

/-- Loop body of DecodeObjects: per document, copy the base template into a
fresh allocation, decode the document into the copy, apply the patches, and
accumulate; a read or decode error makes the function return (nil, err). -/
def decodeObjectsGo (base : TObj) (patches : List MPatch) :
    List TypedDoc → Option Err → Nat → List TObj × Option Err × Nat
  | [], te, c => ([], te, c)
  | d :: rest, te, c =>
    let oc := deepCopy base c
    match d.decodeInto oc.1.content with
    | .error e => ([], some e, oc.2)
    | .ok m =>
      let obj : TObj := ⟨oc.1.id, (applyMPatches patches m).1⟩
      match decodeObjectsGo base patches rest te oc.2 with
      | (os, none, c2) => (obj :: os, none, c2)
      | (_, some e, c2) => ([], some e, c2)

/-- DecodeObjects (decoder.go): `base := obj.DeepCopyObject()` is taken once at
the start of the call, and each document is decoded into a fresh copy of that
template.  `c0` is the allocation counter at entry; every id at or above it is
fresh, so a caller-owned object always has id below `c0`. -/
def DecodeObjects (callerBase : TObj) (m : TManifest) (patches : List MPatch) (c0 : Nat) :
    List TObj × Option Err × Nat :=
  let bc := deepCopy callerBase c0
  decodeObjectsGo bc.1 patches m.docs m.readErr bc.2

/-- Loop body of DecodeDocuments: as DecodeObjects, but each decoded and
patched object is handed to `fn` (which returns nothing) instead of being
collected; the first component is the trace of objects passed to fn. -/
def decodeDocumentsGo (base : TObj) (patches : List MPatch) :
    List TypedDoc → Option Err → Nat → List TObj × Option Err × Nat
  | [], te, c => ([], te, c)
  | d :: rest, te, c =>
    let oc := deepCopy base c
    match d.decodeInto oc.1.content with
    | .error e => ([], some e, oc.2)
    | .ok m =>
      let obj : TObj := ⟨oc.1.id, (applyMPatches patches m).1⟩
      match decodeDocumentsGo base patches rest te oc.2 with
      | (tr, r, c2) => (obj :: tr, r, c2)

/-- DecodeDocuments (decoder.go): the caller-supplied base is itself used as
the template; a fresh copy of it is made for every document. -/
def DecodeDocuments (m : TManifest) (base : TObj) (patches : List MPatch) (c0 : Nat) :
    List TObj × Option Err × Nat :=
  decodeDocumentsGo base patches m.docs m.readErr c0

/-- The per-document outcome of DecodeObjects / DecodeDocuments as a pure
function of the template content and the document alone. -/
def decodeOne (baseContent : ObjMeta) (patches : List MPatch) (d : TypedDoc) :
    Except Err ObjMeta :=
  (d.decodeInto baseContent).map (fun m => (applyMPatches patches m).1)

/-- The Resource client consumed by the handler builders, reduced to the
outcome each of its operations reports for a given object. -/
structure Resources where
  createResult : KObject → Option Err
  updateResult : KObject → Option Err
  deleteResult : KObject → Option Err

/-- An invocation of the Resource client. -/
inductive ClientCall where
  | create (o : KObject)
  | update (o : KObject)
  | delete (o : KObject)

/-- A HandlerFunc built over the Resource client, instrumented with the trace
of client calls it performs. -/
abbrev CHandler := KObject → List ClientCall × Option Err

/-- CreateHandler (decoder.go): r.Create(ctx, obj, opts...). -/
def CreateHandler (r : Resources) : CHandler :=
  fun obj => ([.create obj], r.createResult obj)

/-- UpdateHandler (decoder.go): r.Update(ctx, obj, opts...). -/
def UpdateHandler (r : Resources) : CHandler :=
  fun obj => ([.update obj], r.updateResult obj)

/-- DeleteHandler (decoder.go): r.Delete(ctx, obj, opts...). -/
def DeleteHandler (r : Resources) : CHandler :=
  fun obj => ([.delete obj], r.deleteResult obj)

/-- IgnoreErrorHandler (decoder.go): run the wrapped handler; an error for
which errorMatcher returns true is swallowed. -/
def IgnoreErrorHandler (handler : CHandler) (errorMatcher : Err → Bool) : CHandler :=
  fun obj =>
    match handler obj with
    | (calls, some e) => if errorMatcher e then (calls, none) else (calls, some e)
    | (calls, none) => (calls, none)

/-- CreateIgnoreAlreadyExists (decoder.go). -/
def CreateIgnoreAlreadyExists (r : Resources) : CHandler :=
  fun obj => IgnoreErrorHandler (CreateHandler r) isAlreadyExists obj

/-- DeleteIgnoreNotFound (decoder.go), transcribed as written: it wraps
CreateHandler (not DeleteHandler) with the IsNotFound matcher. -/
def DeleteIgnoreNotFound (r : Resources) : CHandler :=
  fun obj => IgnoreErrorHandler (CreateHandler r) isNotFound obj

/-- Concrete inputs used to instantiate the theorems below. -/

def metaA : ObjMeta := ⟨"cm-a", "", none, none⟩

def oA : KObject := .typed "ConfigMap" metaA

def docA : Document := ⟨.typed oA, .ok []⟩

def metaB : ObjMeta := ⟨"cm-b", "", none, none⟩

def oB : KObject := .typed "ConfigMap" metaB

def docB : Document := ⟨.typed oB, .ok []⟩

/-- A clean two-document stream, as in testdata/example-multidoc-1.yaml. -/
def mTwo : Manifest := ⟨[docA, docB], none⟩

/-- A handler that fails on every invocation. -/
def hFail : Handler := fun _ => some (.msg "handler failed")

/-- A handler that succeeds on every invocation. -/
def hOk : Handler := fun _ => none

/-- Append a tag to the name of a typed object (used to observe patch order). -/
def tagName (tag : String) : KObject → KObject
  | .typed k m => .typed k { m with name := m.name ++ tag }
  | .unstructured fs => .unstructured fs

/-- A patch that mutates the object and then reports an error. -/
def pBad : Patch := fun o => (tagName "+p1" o, some (.msg "patch failed"))

/-- A later patch in the chain, which succeeds. -/
def pTag : Patch := fun o => (tagName "+p2" o, none)

/-- Forget the error component of a patch, keeping its mutation. -/
def dropPatchErr (p : Patch) : Patch := fun o => ((p o).1, none)

def oC : KObject := .typed "ConfigMap" ⟨"cm-c", "", none, none⟩

def docC : Document := ⟨.typed oC, .ok []⟩

def eBadDoc : Err := .msg "bad document"

/-- A document the deserializer rejects. -/
def docBadDoc : Document := ⟨.failed eBadDoc, .ok []⟩

/-- A stream whose first document decodes and whose second fails. -/
def mPartial : Manifest := ⟨[docA, docBadDoc], none⟩

/-- The map of a custom-resource document whose kind is not in the scheme,
as in testdata/fake-crd.yaml. -/
def specFields : UObj :=
  [("apiVersion", .str "example.com/v1"), ("kind", .str "Fake"),
   ("spec", .map [("example", .str "value")])]

/-- The fake CRD document: unregistered kind, well-formed content. -/
def dCRD : Document := ⟨.notRegistered, .ok specFields⟩

/-- A document on which the deserializer fails with a non-registry error. -/
def dOtherErr : Document := ⟨.failed (.msg "conversion error"), .ok []⟩

/-- An unregistered-kind document whose bytes the fallback unmarshal rejects. -/
def dMalformed : Document := ⟨.notRegistered, .error (.msg "yaml parse error")⟩

/-- A document the deserializer accepts but whose runtime.Object does not
satisfy the k8s.Object interface. -/
def docNotObject : Document := ⟨.notObject, .ok []⟩

/-- An object with a present labels map and a nil annotations map. -/
def objC5 : ObjMeta := ⟨"cm", "ns1", some [("x", "y")], none⟩

/-- An object with both maps present. -/
def objC5b : ObjMeta := ⟨"cm", "ns1", some [("x", "y")], some [("k", "v")]⟩

def ovC5 : Smap := [("a", "b")]

/-- A directory listing with one file of each recognized extension and one
non-matching file, in scrambled enumeration order. -/
def c6Listing : List String := ["b.yml", "a.yaml", "notes.txt", "c.json"]

def oFileA : KObject := .typed "ServiceAccount" ⟨"sa-a", "", none, none⟩

def oFileB1 : KObject := .typed "ServiceAccount" ⟨"sa-b1", "", none, none⟩

def oFileB2 : KObject := .typed "ServiceAccount" ⟨"sa-b2", "", none, none⟩

def oFileC : KObject := .typed "ConfigMap" ⟨"cm-c7", "", none, none⟩

def dFileA : Document := ⟨.typed oFileA, .ok []⟩

def dFileB1 : Document := ⟨.typed oFileB1, .ok []⟩

def dFileB2 : Document := ⟨.typed oFileB2, .ok []⟩

def dFileC : Document := ⟨.typed oFileC, .ok []⟩

/-- A directory with a.yaml (1 document), b.yml (2 documents), c.json
(1 document), listed in scrambled enumeration order. -/
def fsEx : DirFS :=
  [("b.yml", ⟨[dFileB1, dFileB2], none⟩),
   ("c.json", ⟨[dFileC], none⟩),
   ("a.yaml", ⟨[dFileA], none⟩)]

/-- A known-type document that decodes by renaming the template. -/
def tdocC8 : TypedDoc := ⟨fun base => .ok { base with name := "decoded" }⟩

def tmC8 : TManifest := ⟨[tdocC8, tdocC8], none⟩

def baseC8 : TObj := ⟨0, ⟨"base", "ns", none, none⟩⟩

/-- A directory whose single file holds a stream that fails on its second
document. -/
def fsBad : DirFS := [("bad.yaml", mPartial)]

/-- A known-type document the decoder rejects. -/
def tdocBad : TypedDoc := ⟨fun _ => .error (.msg "decode failed")⟩

/-- A known-type stream whose first document decodes and whose second fails. -/
def tmBad : TManifest := ⟨[tdocC8, tdocBad], none⟩

/-- C9: for some well-formed single-document input — one the deserializer
accepts but whose runtime.Object does not satisfy k8s.Object — DecodeAny
returns a nil object together with a nil error, for any patch chain. -/
theorem c9_decode_any_nil_nil :
    ∀ (ps : List Patch), DecodeAny docNotObject ps = (none, none) :=
  fun _ => rfl

/-- C10: the handler returned by DeleteIgnoreNotFound is exactly the create
handler with not-found errors swallowed: it performs the single client call
`create obj` (in particular it never performs a delete), and returns the
create operation's error unless that error is the not-found condition. -/
theorem c10_delete_ignore_not_found_creates :
    ∀ (r : Resources) (obj : KObject),
      DeleteIgnoreNotFound r obj
        = ([ClientCall.create obj],
           Option.filter (fun e => !(isNotFound e)) (r.createResult obj)) ∧
      (∀ o, ClientCall.delete o ∉ (DeleteIgnoreNotFound r obj).1) := by
  intro r obj
  have hmain : DeleteIgnoreNotFound r obj
      = ([ClientCall.create obj],
         Option.filter (fun e => !(isNotFound e)) (r.createResult obj)) := by
    unfold DeleteIgnoreNotFound IgnoreErrorHandler CreateHandler
    cases hc : r.createResult obj with
    | none => simp [Option.filter]
    | some e =>
      cases hnf : isNotFound e <;> simp [Option.filter, hnf]
  refine ⟨hmain, ?_⟩
  intro o hmem
  rw [hmain] at hmem
  rcases List.mem_singleton.mp hmem with h
  exact ClientCall.noConfusion h

/-- C5: the annotation-merge patch does not have the label-merge semantics.
At an object whose annotations map is nil, MutateAnnotations leaves the
annotations nil and instead installs the overrides as the object's labels map
(the source calls SetLabels on the fallback path), discarding the previous
labels; MutateLabels on the same object merges into the labels as documented.
Only when the annotations map is already present does MutateAnnotations merge
into annotations and leave the labels untouched. -/
theorem c5_mutate_annotations_is_not_label_merge_on_annotations :
    MutateAnnotations ovC5 objC5 = ({ objC5 with labels := some [("a", "b")] }, none) ∧
    (MutateAnnotations ovC5 objC5).1.annotations = none ∧
    (MutateAnnotations ovC5 objC5).1.labels ≠ objC5.labels ∧
    MutateLabels ovC5 objC5 = ({ objC5 with labels := some [("x", "y"), ("a", "b")] }, none) ∧
    (∀ (ov : Smap) (obj : ObjMeta) (a : Smap), obj.annotations = some a →
      MutateAnnotations ov obj = ({ obj with annotations := some (mapUnion a ov) }, none) ∧
      (MutateAnnotations ov obj).1.labels = obj.labels) := by
  refine ⟨by decide, by decide, by decide, by decide, ?_⟩
  intro ov obj a ha
  cases obj with
  | mk n ns ls as =>
    cases as with
    | none => exact absurd ha (by simp)
    | some a2 =>
      have : a2 = a := by simpa using ha
      subst this
      exact ⟨rfl, rfl⟩

/-- Witness for the hypothesis-bearing conjunct of the C5 theorem: at an
object whose annotations map is present, MutateAnnotations merges into the
annotations and leaves the labels untouched. -/
theorem c5_witness :
    objC5b.annotations = some [("k", "v")] ∧
    MutateAnnotations ovC5 objC5b
      = ({ objC5b with annotations := some (mapUnion [("k", "v")] ovC5) }, none) ∧
    (MutateAnnotations ovC5 objC5b).1.labels = objC5b.labels := by
  have h := (c5_mutate_annotations_is_not_label_merge_on_annotations.2.2.2.2)
      ovC5 objC5b [("k", "v")] (by decide)
  exact ⟨by decide, h.1, h.2⟩

/-- The patch loop keeps only the mutation of each patch: forgetting every
patch's error component does not change the result. -/
theorem applyPatches_ignores_errors (ps : List Patch) (o : KObject) :
    applyPatches ps o = applyPatches (ps.map dropPatchErr) o := by
  induction ps generalizing o with
  | nil => rfl
  | cons p rest ih =>
    simp only [applyPatches, List.foldl_cons, List.map_cons]
    exact ih ((p o).1)

/-- C2: refuted by the code.  Patches are indeed applied strictly in the order
supplied, but a patch error does not stop anything: the loop in DecodeAny (and
in DecodeObjects) is the bare call `patch(obj)`, so the error is discarded,
every later patch still runs, and the decode operation succeeds.  Concretely,
with a first patch that mutates and fails and a second that mutates, DecodeAny
returns the object carrying both mutations in order, with a nil error. -/
theorem c2_patch_errors_discarded :
    (∀ (ps : List Patch) (o : KObject),
        applyPatches ps o = applyPatches (ps.map dropPatchErr) o) ∧
    DecodeAny docC [pBad, pTag]
      = (some (KObject.typed "ConfigMap" ⟨"cm-c" ++ "+p1" ++ "+p2", "", none, none⟩), none) := by
  exact ⟨applyPatches_ignores_errors, rfl⟩

/-- The DecodeEach loop never looks at what the handler returns: its entire
result is the same for any two handlers. -/
theorem decodeEachGo_handler_irrelevant (h₁ h₂ : Handler) (p : List Patch) :
    ∀ (docs : List Document) (te : Option Err),
      decodeEachGo h₁ p docs te = decodeEachGo h₂ p docs te := by
  intro docs
  induction docs with
  | nil => intro te; rfl
  | cons d rest ih =>
    intro te
    simp only [decodeEachGo]
    rcases hd : DecodeAny d p with ⟨o, e⟩
    cases e with
    | none => simp [ih te]
    | some e2 => rfl

/-- The DecodeEachFile loop likewise never looks at the handler results. -/
theorem decodeEachFilesGo_handler_irrelevant (h₁ h₂ : Handler) (fs : DirFS) (p : List Patch) :
    ∀ (files : List String),
      decodeEachFilesGo fs h₁ p files = decodeEachFilesGo fs h₂ p files := by
  intro files
  induction files with
  | nil => rfl
  | cons f rest ih =>
    simp only [decodeEachFilesGo]
    cases findFile fs f with
    | none => rfl
    | some m =>
      rcases hd : DecodeAll m p with ⟨os, e⟩
      cases e with
      | none => simp [hd, ih]
      | some e2 => simp [hd]

/-- C1: refuted by the code.  Both handler-variant operations invoke the
handler as a bare statement (`handlerFn(ctx, obj)` at the DecodeEach and
DecodeEachFile loops) and discard its result, so their outcome — trace of
handler invocations and returned error — is independent of the handler.  On a
clean two-document stream with a handler that fails on its first invocation,
the handler is still invoked for both documents and DecodeEach returns nil. -/
theorem c1_handler_errors_discarded :
    (∀ (h₁ h₂ : Handler) (p : List Patch) (m : Manifest),
        DecodeEach h₁ m p = DecodeEach h₂ m p) ∧
    (∀ (h₁ h₂ : Handler) (fs : DirFS) (base : String) (p : List Patch),
        DecodeEachFile h₁ fs base p = DecodeEachFile h₂ fs base p) ∧
    DecodeEach hFail mTwo [] = ([some oA, some oB], none) := by
  refine ⟨?_, ?_, rfl⟩
  · intro h₁ h₂ p m
    exact decodeEachGo_handler_irrelevant h₁ h₂ p m.docs m.readErr
  · intro h₁ h₂ fs base p
    exact decodeEachFilesGo_handler_irrelevant h₁ h₂ fs p _

/-- On any error outcome, the DecodeAll loop returns nil, discarding every
object accumulated before the failure point. -/
theorem decodeAllGo_error_drops_objects (p : List Patch) :
    ∀ (docs : List Document) (te : Option Err),
      (decodeAllGo p docs te).2 ≠ none → (decodeAllGo p docs te).1 = [] := by
  intro docs
  induction docs with
  | nil => intro te h; rfl
  | cons d rest ih =>
    intro te h
    simp only [decodeAllGo] at h ⊢
    rcases hd : DecodeAny d p with ⟨o, e⟩
    cases e with
    | some e2 => simp [hd]
    | none =>
      simp only [hd] at h ⊢
      rcases hr : decodeAllGo p rest te with ⟨os, r⟩
      cases r with
      | none => simp [hr] at h
      | some e2 => simp [hr]

/-- On the success outcome, the DecodeAll loop hit clean EOF and returned the
per-document decode results in document order. -/
theorem decodeAllGo_ok_collects (p : List Patch) :
    ∀ (docs : List Document) (te : Option Err),
      (decodeAllGo p docs te).2 = none →
      te = none ∧ (decodeAllGo p docs te).1 = docs.map (fun d => (DecodeAny d p).1) := by
  intro docs
  induction docs with
  | nil => intro te h; exact ⟨h, rfl⟩
  | cons d rest ih =>
    intro te h
    simp only [decodeAllGo] at h ⊢
    rcases hd : DecodeAny d p with ⟨o, e⟩
    cases e with
    | some e2 => simp [hd] at h
    | none =>
      simp only [hd] at h ⊢
      rcases hr : decodeAllGo p rest te with ⟨os, r⟩
      cases r with
      | some e2 => simp [hr] at h
      | none =>
        have hih := ih te (by rw [hr])
        have h2 : os = rest.map (fun d => (DecodeAny d p).1) := by
          have h3 := hih.2
          rw [hr] at h3
          exact h3
        exact ⟨hih.1, by simp [hd, hr, h2]⟩

/-- C3 counterexample: on a stream whose first document decodes and whose
second fails, DecodeAll returns nil together with the error — the object
decoded before the failure point is not returned. -/
theorem c3_counterexample :
    DecodeAll mPartial [] = ([], some eBadDoc) ∧
    (DecodeAll mPartial []).1 ≠ [some oA] := by
  refine ⟨rfl, ?_⟩
  intro h
  have h2 : ([] : List (Option KObject)) = [some oA] := h
  exact List.noConfusion h2

/-- C4: a well-formed document whose kind the scheme does not register never
fails DecodeAny: it is decoded into the generic unstructured representation
carrying the document's own map (so any field, e.g. "spec", reads back
unchanged through the .Object accessor); only a non-registry deserializer
error, or a document the fallback unmarshal rejects, is fatal. -/
theorem c4_unregistered_kind_falls_back :
    ∀ (d : Document) (fs : UObj),
      (d.scheme = .notRegistered → d.unmarshal = .ok fs →
        DecodeAny d [] = (some (.unstructured fs), none) ∧
        (DecodeAny d []).1.bind (fun o => o.getField "spec")
          = (fs.find? (fun kv => kv.1 == "spec")).map Prod.snd) ∧
      (∀ e ps, d.scheme = .failed e → DecodeAny d ps = (none, some e)) ∧
      (∀ e ps, d.scheme = .notRegistered → d.unmarshal = .error e →
        DecodeAny d ps = (none, some e)) := by
  intro d fs
  refine ⟨?_, ?_, ?_⟩
  · intro hs hu
    have h1 : DecodeAny d [] = (some (.unstructured fs), none) := by
      simp [DecodeAny, hs, hu, applyPatches]
    refine ⟨h1, ?_⟩
    rw [h1]
    rfl
  · intro e ps hs
    simp [DecodeAny, hs]
  · intro e ps hs hu
    simp [DecodeAny, hs, hu]

/-- Witness for C4: the fake-CRD document (unregistered kind, well-formed
bytes) decodes to the unstructured object exposing its spec map unchanged,
while a non-registry deserializer error and a malformed fallback document are
fatal. -/
theorem c4_witness :
    (DecodeAny dCRD [] = (some (.unstructured specFields), none) ∧
      (DecodeAny dCRD []).1.bind (fun o => o.getField "spec")
        = (specFields.find? (fun kv => kv.1 == "spec")).map Prod.snd) ∧
    DecodeAny dOtherErr [] = (none, some (.msg "conversion error")) ∧
    DecodeAny dMalformed [] = (none, some (.msg "yaml parse error")) :=
  ⟨(c4_unregistered_kind_falls_back dCRD specFields).1 rfl rfl,
   (c4_unregistered_kind_falls_back dOtherErr []).2.1 (.msg "conversion error") [] rfl,
   (c4_unregistered_kind_falls_back dMalformed []).2.2 (.msg "yaml parse error") [] rfl rfl⟩

/-- A name matching an extension glob ends with that extension. -/
theorem globMatch_suffix {base ext name : String} (h : globMatch base ext name = true) :
    ext.data <:+ name.data := by
  simp only [globMatch, Bool.and_eq_true, List.isSuffixOf_iff_suffix, decide_eq_true_eq] at h
  exact h.1.2

/-- Two would-be suffixes of one list are comparable, so incomparable
extension strings can never both be suffixes of one file name. -/
theorem suffix_disjoint {e1 e2 : String}
    (h12 : ¬ e1.data.reverse <+: e2.data.reverse)
    (h21 : ¬ e2.data.reverse <+: e1.data.reverse) :
    ∀ nd : List Char, e1.data <:+ nd → e2.data <:+ nd → False := by
  intro nd s1 s2
  have p1 : e1.data.reverse <+: nd.reverse := List.reverse_prefix.mpr s1
  have p2 : e2.data.reverse <+: nd.reverse := List.reverse_prefix.mpr s2
  rcases List.prefix_or_prefix_of_prefix p1 p2 with h | h
  · exact h12 h
  · exact h21 h

/-- No file name ends with two of the three recognized extensions at once. -/
theorem extensions_mutually_exclusive (name : String) :
    (¬ ((".yaml" : String).data <:+ name.data ∧ (".yml" : String).data <:+ name.data)) ∧
    (¬ ((".yaml" : String).data <:+ name.data ∧ (".json" : String).data <:+ name.data)) ∧
    (¬ ((".yml" : String).data <:+ name.data ∧ (".json" : String).data <:+ name.data)) := by
  refine ⟨fun h => ?_, fun h => ?_, fun h => ?_⟩
  · exact suffix_disjoint (by decide) (by decide) name.data h.1 h.2
  · exact suffix_disjoint (by decide) (by decide) name.data h.1 h.2
  · exact suffix_disjoint (by decide) (by decide) name.data h.1 h.2

/-- C6: over any directory listing without duplicate names, the file resolver
returns exactly the names matching one of the three extension globs (with the
optional filename-prefix base), without duplicates, sorted ascending by path
string, and its output does not depend on the order in which the filesystem
enumerated the directory. -/
theorem c6_list_resource_files :
    ∀ (listing : List String) (base : String), listing.Nodup →
      (∀ f, f ∈ listResourceFiles listing base ↔
          f ∈ listing ∧ matchesAnyExt base f = true) ∧
      (listResourceFiles listing base).Nodup ∧
      List.Sorted fileLe (listResourceFiles listing base) ∧
      (∀ listing₂, listing.Perm listing₂ →
        listResourceFiles listing₂ base = listResourceFiles listing base) := by
  intro listing base hnd
  refine ⟨?_, ?_, ?_, ?_⟩
  · intro f
    unfold listResourceFiles
    rw [List.Perm.mem_iff (List.perm_insertionSort fileLe _)]
    simp only [List.mem_append, List.mem_filter, matchesAnyExt, Bool.or_eq_true]
    tauto
  · have n1 : (listing.filter (globMatch base ".yaml")).Nodup := hnd.filter _
    have n2 : (listing.filter (globMatch base ".yml")).Nodup := hnd.filter _
    have n3 : (listing.filter (globMatch base ".json")).Nodup := hnd.filter _
    have d23 : (listing.filter (globMatch base ".yml")).Disjoint
        (listing.filter (globMatch base ".json")) := by
      rw [List.disjoint_left]
      intro a ha hb
      have sa := globMatch_suffix (List.mem_filter.mp ha).2
      have sb := globMatch_suffix (List.mem_filter.mp hb).2
      exact (extensions_mutually_exclusive a).2.2 ⟨sa, sb⟩
    have d123 : (listing.filter (globMatch base ".yaml")).Disjoint
        (listing.filter (globMatch base ".yml") ++ listing.filter (globMatch base ".json")) := by
      rw [List.disjoint_left]
      intro a ha hb
      have sa := globMatch_suffix (List.mem_filter.mp ha).2
      rcases List.mem_append.mp hb with hb2 | hb2
      · exact (extensions_mutually_exclusive a).1 ⟨sa, globMatch_suffix (List.mem_filter.mp hb2).2⟩
      · exact (extensions_mutually_exclusive a).2.1 ⟨sa, globMatch_suffix (List.mem_filter.mp hb2).2⟩
    have hcat : (listing.filter (globMatch base ".yaml") ++
        (listing.filter (globMatch base ".yml") ++ listing.filter (globMatch base ".json"))).Nodup :=
      n1.append (n2.append n3 d23) d123
    exact ((List.perm_insertionSort fileLe _).symm.nodup hcat)
  · exact List.sorted_insertionSort fileLe _
  · intro listing₂ hperm
    refine List.eq_of_perm_of_sorted ?_ (List.sorted_insertionSort fileLe _)
      (List.sorted_insertionSort fileLe _)
    refine ((List.perm_insertionSort fileLe _).trans ?_).trans
      (List.perm_insertionSort fileLe _).symm
    exact ((hperm.filter _).append ((hperm.filter _).append (hperm.filter _))).symm

/-- Witness for C6 at a concrete listing: the three matching files come back
deduplicated and sorted, the non-matching file is dropped, and a scrambled
enumeration yields the same output. -/
theorem c6_witness :
    c6Listing.Nodup ∧
    (∀ f, f ∈ listResourceFiles c6Listing "" ↔
        f ∈ c6Listing ∧ matchesAnyExt "" f = true) ∧
    (listResourceFiles c6Listing "").Nodup ∧
    List.Sorted fileLe (listResourceFiles c6Listing "") ∧
    (∀ listing₂, c6Listing.Perm listing₂ →
      listResourceFiles listing₂ "" = listResourceFiles c6Listing "") :=
  ⟨by decide, c6_list_resource_files c6Listing "" (by decide)⟩

/-- On the success outcome, the DecodeAllFiles loop returns the concatenation
of each resolved file's decoded objects, in file order. -/
theorem decodeFilesGo_ok_concat (fs : DirFS) (p : List Patch) :
    ∀ (files : List String),
      (decodeFilesGo fs p files).2 = none →
      (decodeFilesGo fs p files).1 = files.flatMap (fileObjs fs p) := by
  intro files
  induction files with
  | nil => intro h; rfl
  | cons f rest ih =>
    intro h
    simp only [decodeFilesGo] at h ⊢
    cases hff : findFile fs f with
    | none => simp [hff] at h
    | some m =>
      simp only [hff] at h ⊢
      rcases hd : DecodeAll m p with ⟨os, e⟩
      cases e with
      | some e2 => simp [hd] at h
      | none =>
        simp only [hd] at h ⊢
        rcases hr : decodeFilesGo fs p rest with ⟨os2, r⟩
        cases r with
        | some e2 => simp [hr] at h
        | none =>
          have h2 : os2 = rest.flatMap (fileObjs fs p) := by
            have h3 := ih (by rw [hr])
            rw [hr] at h3
            exact h3
          simp [hr, h2, List.flatMap_cons, fileObjs, hff, hd]

/-- On the success outcome, the DecodeEachFile loop invokes the handler on the
concatenation of each resolved file's decoded objects, in file order. -/
theorem decodeEachFilesGo_ok_concat (fs : DirFS) (h : Handler) (p : List Patch) :
    ∀ (files : List String),
      (decodeEachFilesGo fs h p files).2 = none →
      (decodeEachFilesGo fs h p files).1 = files.flatMap (fileObjs fs p) := by
  intro files
  induction files with
  | nil => intro hok; rfl
  | cons f rest ih =>
    intro hok
    simp only [decodeEachFilesGo] at hok ⊢
    cases hff : findFile fs f with
    | none => simp [hff] at hok
    | some m =>
      simp only [hff] at hok ⊢
      rcases hd : DecodeAll m p with ⟨os, e⟩
      cases e with
      | some e2 => simp [hd] at hok
      | none =>
        simp only [hd] at hok ⊢
        rcases hr : decodeEachFilesGo fs h p rest with ⟨tr, r⟩
        cases r with
        | some e2 => simp [hr] at hok
        | none =>
          have h2 : tr = rest.flatMap (fileObjs fs p) := by
            have h3 := ih (by rw [hr])
            rw [hr] at h3
            exact h3
          simp [hr, h2, List.flatMap_cons, fileObjs, hff, hd]

/-- C7: when a directory decode succeeds, the output objects of the collect
variant — and the handler invocation order of the handler variant — are
exactly the documents of each resolved file in document order, concatenated in
resolved (sorted) file order. -/
theorem c7_directory_order_preserved :
    ∀ (fs : DirFS) (base : String) (p : List Patch),
      ((DecodeAllFiles fs base p).2 = none →
        (DecodeAllFiles fs base p).1
          = (listResourceFiles (fs.map Prod.fst) base).flatMap (fileObjs fs p)) ∧
      (∀ h, (DecodeEachFile h fs base p).2 = none →
        (DecodeEachFile h fs base p).1
          = (listResourceFiles (fs.map Prod.fst) base).flatMap (fileObjs fs p)) := by
  intro fs base p
  exact ⟨decodeFilesGo_ok_concat fs p _,
         fun h => decodeEachFilesGo_ok_concat fs h p _⟩

/-- Witness for C7: on a directory holding a.yaml (1 document), b.yml (2
documents) and c.json (1 document), enumerated in scrambled order, both
variants produce exactly the four objects in the order a, b1, b2, c. -/
theorem c7_witness :
    ((DecodeAllFiles fsEx "" []).1
        = (listResourceFiles (fsEx.map Prod.fst) "").flatMap (fileObjs fsEx []) ∧
      (DecodeAllFiles fsEx "" []).1 = [some oFileA, some oFileB1, some oFileB2, some oFileC]) ∧
    ((DecodeEachFile hOk fsEx "" []).1
        = (listResourceFiles (fsEx.map Prod.fst) "").flatMap (fileObjs fsEx []) ∧
      (DecodeEachFile hOk fsEx "" []).1 = [some oFileA, some oFileB1, some oFileB2, some oFileC]) :=
  ⟨⟨(c7_directory_order_preserved fsEx "" []).1 rfl, rfl⟩,
   ⟨(c7_directory_order_preserved fsEx "" []).2 hOk rfl, rfl⟩⟩

/-- Each iteration of the DecodeObjects loop decodes into a fresh copy of the
template: the identities of the returned objects are exactly the consecutive
allocations made from the counter on. -/
theorem decodeObjectsGo_ids (b : TObj) (p : List MPatch) :
    ∀ (docs : List TypedDoc) (te : Option Err) (c : Nat),
      (decodeObjectsGo b p docs te c).1.map TObj.id
        = List.range' c (decodeObjectsGo b p docs te c).1.length := by
  intro docs
  induction docs with
  | nil => intro te c; cases te <;> rfl
  | cons d rest ih =>
    intro te c
    simp only [decodeObjectsGo, deepCopy]
    cases hd : d.decodeInto b.content with
    | error e => rfl
    | ok m2 =>
      rcases hr : decodeObjectsGo b p rest te (c + 1) with ⟨os, r, c2⟩
      cases r with
      | some e => simp [hr]
      | none =>
        have hids : os.map TObj.id = List.range' (c + 1) os.length := by
          have h3 := ih te (c + 1)
          rw [hr] at h3
          exact h3
        simp [hr, hids, List.range']

/-- On success, the content of each object the DecodeObjects loop returns is a
function of the template content and that object's own document alone. -/
theorem decodeObjectsGo_contents (b : TObj) (p : List MPatch) :
    ∀ (docs : List TypedDoc) (te : Option Err) (c : Nat),
      (decodeObjectsGo b p docs te c).2.1 = none →
      docs.map (decodeOne b.content p)
        = (decodeObjectsGo b p docs te c).1.map (fun o => Except.ok o.content) := by
  intro docs
  induction docs with
  | nil => intro te c h; rfl
  | cons d rest ih =>
    intro te c h
    simp only [decodeObjectsGo, deepCopy] at h ⊢
    cases hd : d.decodeInto b.content with
    | error e => simp [hd] at h
    | ok m2 =>
      simp only [hd] at h ⊢
      rcases hr : decodeObjectsGo b p rest te (c + 1) with ⟨os, r, c2⟩
      cases r with
      | some e => simp [hr] at h
      | none =>
        have h2 : rest.map (decodeOne b.content p) = os.map (fun o => Except.ok o.content) := by
          have h3 := ih te (c + 1) (by rw [hr])
          rw [hr] at h3
          exact h3
        simp [hr, h2, decodeOne, hd, Except.map]

/-- The identities returned by the DecodeDocuments loop are likewise the
consecutive fresh allocations, for every outcome. -/
theorem decodeDocumentsGo_ids (b : TObj) (p : List MPatch) :
    ∀ (docs : List TypedDoc) (te : Option Err) (c : Nat),
      (decodeDocumentsGo b p docs te c).1.map TObj.id
        = List.range' c (decodeDocumentsGo b p docs te c).1.length := by
  intro docs
  induction docs with
  | nil => intro te c; cases te <;> rfl
  | cons d rest ih =>
    intro te c
    simp only [decodeDocumentsGo, deepCopy]
    cases hd : d.decodeInto b.content with
    | error e => rfl
    | ok m2 =>
      rcases hr : decodeDocumentsGo b p rest te (c + 1) with ⟨tr, r, c2⟩
      have hids : tr.map TObj.id = List.range' (c + 1) tr.length := by
        have h3 := ih te (c + 1)
        rw [hr] at h3
        exact h3
      simp [hr, hids, List.range']

/-- On success, the content of each object the DecodeDocuments loop hands to
fn is a function of the base content and that object's own document alone. -/
theorem decodeDocumentsGo_contents (b : TObj) (p : List MPatch) :
    ∀ (docs : List TypedDoc) (te : Option Err) (c : Nat),
      (decodeDocumentsGo b p docs te c).2.1 = none →
      docs.map (decodeOne b.content p)
        = (decodeDocumentsGo b p docs te c).1.map (fun o => Except.ok o.content) := by
  intro docs
  induction docs with
  | nil => intro te c h; rfl
  | cons d rest ih =>
    intro te c h
    simp only [decodeDocumentsGo, deepCopy] at h ⊢
    cases hd : d.decodeInto b.content with
    | error e => simp [hd] at h
    | ok m2 =>
      simp only [hd] at h ⊢
      rcases hr : decodeDocumentsGo b p rest te (c + 1) with ⟨tr, r, c2⟩
      cases r with
      | some e => simp [hr] at h
      | none =>
        have h2 : rest.map (decodeOne b.content p) = tr.map (fun o => Except.ok o.content) := by
          have h3 := ih te (c + 1) (by rw [hr])
          rw [hr] at h3
          exact h3
        simp [hr, h2, decodeOne, hd, Except.map]

/-- C8: both known-type multi-document decodes allocate one template copy (for
DecodeObjects) and then a fresh deep copy per document: the returned objects
carry pairwise distinct allocation identities, none of which is the caller's
base allocation (so no decode or patch write is observable through the base or
through any other decoded object), and on success each object's content is a
function of the base content and its own document alone. -/
theorem c8_fresh_copy_isolation :
    ∀ (b : TObj) (m : TManifest) (p : List MPatch) (c0 : Nat),
      ((DecodeObjects b m p c0).1.map TObj.id
          = List.range' (c0 + 1) (DecodeObjects b m p c0).1.length) ∧
      ((DecodeObjects b m p c0).1.map TObj.id).Nodup ∧
      (b.id < c0 → ∀ o ∈ (DecodeObjects b m p c0).1, o.id ≠ b.id) ∧
      ((DecodeObjects b m p c0).2.1 = none →
        m.docs.map (decodeOne b.content p)
          = (DecodeObjects b m p c0).1.map (fun o => Except.ok o.content)) ∧
      ((DecodeDocuments m b p c0).1.map TObj.id
          = List.range' c0 (DecodeDocuments m b p c0).1.length) ∧
      ((DecodeDocuments m b p c0).1.map TObj.id).Nodup ∧
      (b.id < c0 → ∀ o ∈ (DecodeDocuments m b p c0).1, o.id ≠ b.id) ∧
      ((DecodeDocuments m b p c0).2.1 = none →
        m.docs.map (decodeOne b.content p)
          = (DecodeDocuments m b p c0).1.map (fun o => Except.ok o.content)) := by
  intro b m p c0
  have hidsO : (DecodeObjects b m p c0).1.map TObj.id
      = List.range' (c0 + 1) (DecodeObjects b m p c0).1.length :=
    decodeObjectsGo_ids ⟨c0, b.content⟩ p m.docs m.readErr (c0 + 1)
  have hidsD : (DecodeDocuments m b p c0).1.map TObj.id
      = List.range' c0 (DecodeDocuments m b p c0).1.length :=
    decodeDocumentsGo_ids b p m.docs m.readErr c0
  refine ⟨hidsO, ?_, ?_, decodeObjectsGo_contents ⟨c0, b.content⟩ p m.docs m.readErr (c0 + 1),
          hidsD, ?_, ?_, decodeDocumentsGo_contents b p m.docs m.readErr c0⟩
  · rw [hidsO]
    exact List.nodup_range' _ _
  · intro hlt o ho heq
    have hmem : o.id ∈ (DecodeObjects b m p c0).1.map TObj.id := List.mem_map_of_mem TObj.id ho
    rw [hidsO, List.mem_range'_1] at hmem
    omega
  · rw [hidsD]
    exact List.nodup_range' _ _
  · intro hlt o ho heq
    have hmem : o.id ∈ (DecodeDocuments m b p c0).1.map TObj.id := List.mem_map_of_mem TObj.id ho
    rw [hidsD, List.mem_range'_1] at hmem
    omega

/-- Witness for C8 at a concrete base, counter and two-document stream: the
hypotheses (caller-owned base id below the counter; success) discharged. -/
theorem c8_witness :
    (∀ o ∈ (DecodeObjects baseC8 tmC8 [] 1).1, o.id ≠ baseC8.id) ∧
    (tmC8.docs.map (decodeOne baseC8.content [])
      = (DecodeObjects baseC8 tmC8 [] 1).1.map (fun o => Except.ok o.content)) ∧
    (∀ o ∈ (DecodeDocuments tmC8 baseC8 [] 1).1, o.id ≠ baseC8.id) ∧
    (tmC8.docs.map (decodeOne baseC8.content [])
      = (DecodeDocuments tmC8 baseC8 [] 1).1.map (fun o => Except.ok o.content)) :=
  ⟨(c8_fresh_copy_isolation baseC8 tmC8 [] 1).2.2.1 (by decide),
   (c8_fresh_copy_isolation baseC8 tmC8 [] 1).2.2.2.1 rfl,
   (c8_fresh_copy_isolation baseC8 tmC8 [] 1).2.2.2.2.2.2.1 (by decide),
   (c8_fresh_copy_isolation baseC8 tmC8 [] 1).2.2.2.2.2.2.2 rfl⟩

/-- On any error outcome, the DecodeAllFiles loop returns nil, discarding the
objects gathered from the files processed before the failure point. -/
theorem decodeFilesGo_error_drops (fs : DirFS) (p : List Patch) :
    ∀ (files : List String),
      (decodeFilesGo fs p files).2 ≠ none → (decodeFilesGo fs p files).1 = [] := by
  intro files
  induction files with
  | nil => intro h; exact absurd rfl h
  | cons f rest ih =>
    intro h
    simp only [decodeFilesGo] at h ⊢
    cases hff : findFile fs f with
    | none => simp [hff]
    | some m =>
      simp only [hff] at h ⊢
      rcases hd : DecodeAll m p with ⟨os, e⟩
      cases e with
      | some e2 => simp [hd]
      | none =>
        simp only [hd] at h ⊢
        rcases hr : decodeFilesGo fs p rest with ⟨os2, r⟩
        cases r with
        | none => simp [hr] at h
        | some e2 => simp [hr]

/-- On any error outcome, the DecodeObjects loop returns nil, discarding the
objects decoded before the failure point. -/
theorem decodeObjectsGo_error_drops (b : TObj) (p : List MPatch) :
    ∀ (docs : List TypedDoc) (te : Option Err) (c : Nat),
      (decodeObjectsGo b p docs te c).2.1 ≠ none → (decodeObjectsGo b p docs te c).1 = [] := by
  intro docs
  induction docs with
  | nil =>
    intro te c h
    cases te with
    | none => exact absurd rfl h
    | some e => rfl
  | cons d rest ih =>
    intro te c h
    simp only [decodeObjectsGo, deepCopy] at h ⊢
    cases hd : d.decodeInto b.content with
    | error e => simp [hd]
    | ok m2 =>
      simp only [hd] at h ⊢
      rcases hr : decodeObjectsGo b p rest te (c + 1) with ⟨os, r, c2⟩
      cases r with
      | none => simp [hr] at h
      | some e2 => simp [hr]

/-- C3 as amended: when any document fails to decode (or a stream read or file
open fails), the collect-variant operations — DecodeAll, DecodeAllFiles and
DecodeObjects — return nil together with the error, discarding the objects
gathered before the failure point; on success they return the full sequence,
in document order (concatenated in resolved file order for the directory
variant), with no error. -/
theorem c3_amended_no_partial_results :
    ∀ (m : Manifest) (p : List Patch) (fs : DirFS) (base : String)
      (b : TObj) (tm : TManifest) (mp : List MPatch) (c0 : Nat),
      ((DecodeAll m p).2 ≠ none → (DecodeAll m p).1 = []) ∧
      ((DecodeAll m p).2 = none →
        m.readErr = none ∧ (DecodeAll m p).1 = m.docs.map (fun d => (DecodeAny d p).1)) ∧
      ((DecodeAllFiles fs base p).2 ≠ none → (DecodeAllFiles fs base p).1 = []) ∧
      ((DecodeAllFiles fs base p).2 = none →
        (DecodeAllFiles fs base p).1
          = (listResourceFiles (fs.map Prod.fst) base).flatMap (fileObjs fs p)) ∧
      ((DecodeObjects b tm mp c0).2.1 ≠ none → (DecodeObjects b tm mp c0).1 = []) ∧
      ((DecodeObjects b tm mp c0).2.1 = none →
        tm.docs.map (decodeOne b.content mp)
          = (DecodeObjects b tm mp c0).1.map (fun o => Except.ok o.content)) := by
  intro m p fs base b tm mp c0
  exact ⟨decodeAllGo_error_drops_objects p m.docs m.readErr,
         decodeAllGo_ok_collects p m.docs m.readErr,
         decodeFilesGo_error_drops fs p _,
         decodeFilesGo_ok_concat fs p _,
         decodeObjectsGo_error_drops ⟨c0, b.content⟩ mp tm.docs tm.readErr (c0 + 1),
         decodeObjectsGo_contents ⟨c0, b.content⟩ mp tm.docs tm.readErr (c0 + 1)⟩

/-- Witness for the C3 amended theorem: every hypothesis discharged at concrete
inputs — a failing stream, directory and known-type stream each yield nil,
while their clean counterparts yield the full sequences. -/
theorem c3_amended_witness :
    (DecodeAll mPartial []).1 = [] ∧
    (mTwo.readErr = none ∧ (DecodeAll mTwo []).1 = mTwo.docs.map (fun d => (DecodeAny d []).1)) ∧
    (DecodeAllFiles fsBad "" []).1 = [] ∧
    ((DecodeAllFiles fsEx "" []).1
      = (listResourceFiles (fsEx.map Prod.fst) "").flatMap (fileObjs fsEx [])) ∧
    (DecodeObjects baseC8 tmBad [] 1).1 = [] ∧
    (tmC8.docs.map (decodeOne baseC8.content [])
      = (DecodeObjects baseC8 tmC8 [] 1).1.map (fun o => Except.ok o.content)) := by
  refine ⟨(c3_amended_no_partial_results mPartial [] fsBad "" baseC8 tmBad [] 1).1 ?_,
          (c3_amended_no_partial_results mTwo [] fsBad "" baseC8 tmBad [] 1).2.1 rfl,
          (c3_amended_no_partial_results mPartial [] fsBad "" baseC8 tmBad [] 1).2.2.1 ?_,
          (c3_amended_no_partial_results mPartial [] fsEx "" baseC8 tmBad [] 1).2.2.2.1 rfl,
          (c3_amended_no_partial_results mPartial [] fsBad "" baseC8 tmBad [] 1).2.2.2.2.1 ?_,
          (c3_amended_no_partial_results mPartial [] fsBad "" baseC8 tmC8 [] 1).2.2.2.2.2 rfl⟩
  · intro h
    exact Option.noConfusion h
  · intro h
    exact Option.noConfusion h
  · intro h
    exact Option.noConfusion h

end resources
